import Mathlib

/-!
Verification of the toybox ECS core (`tb_ecs`): resource store (`world.rs`),
system registry and dependency-graph builder (`system/registry.rs`), and the
join algebra (`join.rs`), shallowly embedded in Lean.

Rust `TypeId`-based resource and system identities are embedded as `Nat`;
resource values are embedded by the small closed type `RVal` (an ordinary
data resource carrying an `Int`, or the lazily created
`EventChannel<ResourcesChangeEvent>` resource carrying its received-event
count).  `std::any::type_name` is embedded as an arbitrary function
`ResourceId → String` passed to the fetch operations.
-/

namespace Toybox

/-- Embeds `ResourceId` (`world.rs`): a stable per-type identifier. -/
abbrev ResourceId := Nat

/-- The distinguished identifier of the `EventChannel<ResourcesChangeEvent>`
resource type that `World::insert` lazily materializes. -/
def channelId : ResourceId := 0

/-- Embeds the possible stored resource values: `data n` is an ordinary user
resource, `chan e` is the change-notification event channel holding the number
of `ResourcesChangeEvent`s pushed so far.  `EventChannel` itself lives in
`tb_core` (not under `src/`); modelled from the spec: a channel resource that
receives pushed events ("pushes a resources changed event", spec 4.1). -/
inductive RVal where
  | data (n : Int)
  | chan (events : Nat)
deriving DecidableEq

/-- Embeds the borrow state of a `RefCell` (`world.rs` wraps every stored
resource in `RefCell<Box<dyn Resource>>`): unborrowed, shared-borrowed with a
count, or exclusively borrowed. -/
inductive BorrowFlag where
  | free
  | shared (n : Nat)
  | exclusive
deriving DecidableEq

/-- One stored resource: its value together with its `RefCell` borrow flag. -/
structure Cell where
  val : RVal
  flag : BorrowFlag
deriving DecidableEq

/-- Embeds `World` (`world.rs`): `resources: HashMap<ResourceId, RefCell<Box<dyn
Resource>>>`, as an association list from identifiers to cells. -/
structure World where
  res : List (ResourceId × Cell)
deriving DecidableEq

/-- Embeds `self.resources.get(&ResourceId::new::<R>())`. -/
def World.lookup (w : World) (rid : ResourceId) : Option Cell :=
  (w.res.find? (fun p => p.1 == rid)).map (fun p => p.2)

/-- Embeds `World::contains` (`world.rs` line 68). -/
def World.containsR (w : World) (rid : ResourceId) : Bool :=
  (w.lookup rid).isSome

/-- Inserting a fresh, unborrowed cell (the `or_insert_with` arm of
`World::insert`). -/
def World.addNew (w : World) (rid : ResourceId) (v : RVal) : World :=
  ⟨w.res ++ [(rid, ⟨v, .free⟩)]⟩

/-- In-place update of the cell stored under `rid` (mutation through the
exclusive reference `fetch_mut` hands out). -/
def World.update (w : World) (rid : ResourceId) (f : Cell → Cell) : World :=
  ⟨w.res.map (fun p => if p.1 == rid then (p.1, f p.2) else p)⟩

/-- Embeds `EventChannel::push(ResourcesChangeEvent::new())` (`world.rs` line
40): one more event is received by the channel resource.  `EventChannel` is in
`tb_core` (not under `src/`); modelled from the spec: pushing a "resources
changed" event onto the change-notification channel resource. -/
def World.pushEvent (w : World) : World :=
  w.update channelId (fun c =>
    match c.val with
    | .chan e => ⟨.chan (e + 1), c.flag⟩
    | v => ⟨v, c.flag⟩)

/-- The inner recursive call `self.insert(EventChannel::default)` of
`World::insert` (`world.rs` line 39), with the recursion unfolded once: when
the channel is absent it is constructed via `EventChannel::default` and the
recursive `insert` for the channel itself finds it present (so only pushes one
event for the channel's own creation); when present, nothing changes. -/
def World.insertChannel (w : World) : World :=
  if w.containsR channelId then w
  else ((w.addNew channelId (.chan 0)).pushEvent)

/-- Embeds `World::insert` (`world.rs` lines 29-43): `or_insert_with` runs the
factory only when the type is absent (`is_new`); on a fresh insertion the
change-notification channel is lazily inserted (possibly pushing the event for
its own creation) and one `ResourcesChangeEvent` is pushed for this insertion.
The returned `&mut R` is observed through `World.lookup` / `World.tryFetch`. -/
def World.insertR (w : World) (rid : ResourceId) (v : RVal) : World :=
  if w.containsR rid then w
  else (((w.addNew rid v).insertChannel).pushEvent)

/-- Result of a fetch operation: `panicked` embeds a `RefCell` borrow-conflict
panic, `err` embeds the recoverable `errors::ErrorKind::Fetch(type_name)`
(`world.rs` lines 13-16), `ok` a successful borrow. -/
inductive FetchResult (α : Type) where
  | panicked
  | err (typeName : String)
  | ok (a : α)
deriving DecidableEq

/-- Embeds `World::try_fetch` (`world.rs` lines 45-50): absent type gives a
`Fetch` error carrying `std::any::type_name::<R>()` (embedded as `tn rid`);
`r.borrow()` panics iff the cell is exclusively borrowed; otherwise the value
is read.  The `Ref` guard is a temporary dropped inside the call (the unsafe
raw-pointer cast escapes it), so the call leaves no borrow recorded and does
not modify the store. -/
def World.tryFetch (w : World) (tn : ResourceId → String) (rid : ResourceId) :
    FetchResult RVal :=
  match w.lookup rid with
  | none => .err (tn rid)
  | some c =>
    match c.flag with
    | .exclusive => .panicked
    | _ => .ok c.val

/-- Embeds `World::try_fetch_mut` (`world.rs` lines 52-57): absent type gives
a `Fetch` error; `r.borrow_mut()` panics iff the cell is borrowed at all; on
success the returned exclusive reference is embedded as the value together
with the identifier of the cell it aliases.  As in `tryFetch`, the `RefMut`
guard is dropped inside the call, so no borrow survives the call. -/
def World.tryFetchMut (w : World) (tn : ResourceId → String) (rid : ResourceId) :
    FetchResult (RVal × ResourceId) :=
  match w.lookup rid with
  | none => .err (tn rid)
  | some c =>
    match c.flag with
    | .free => .ok (c.val, rid)
    | _ => .panicked

/-- Embeds `World::try_fetch_mut` with the borrow-guard lifetime made explicit
as a state transformer: `borrow_mut` sets the cell's flag to `exclusive` (the
guard), the unsafe cast `&mut *(... as *mut R)` escapes the guard, and the
guard is dropped before the function returns, restoring the flag to `free` in
the post-call store. -/
def World.tryFetchMutCall (w : World) (tn : ResourceId → String)
    (rid : ResourceId) : FetchResult (RVal × ResourceId) × World :=
  match w.lookup rid with
  | none => (.err (tn rid), w)
  | some c =>
    match c.flag with
    | .free =>
      let locked := w.update rid (fun c0 => ⟨c0.val, .exclusive⟩)
      let released := locked.update rid (fun c0 => ⟨c0.val, .free⟩)
      (.ok (c.val, rid), released)
    | _ => (.panicked, w)

/-- Embeds `World::fetch` (`world.rs` lines 59-61): `try_fetch().unwrap()`;
`none` embeds the fatal abort (panic of `unwrap` on the `Fetch` error, or the
propagated borrow-conflict panic). -/
def World.fetch (w : World) (tn : ResourceId → String) (rid : ResourceId) :
    Option RVal :=
  match w.tryFetch tn rid with
  | .ok v => some v
  | _ => none

/-- Embeds `World::fetch_mut` (`world.rs` lines 63-66): `try_fetch_mut().unwrap()`. -/
def World.fetchMut (w : World) (tn : ResourceId → String) (rid : ResourceId) :
    Option (RVal × ResourceId) :=
  match w.tryFetchMut tn rid with
  | .ok v => some v
  | _ => none

/-- Mutation performed through the exclusive reference returned by
`fetch_mut` (e.g. `resource.value = 20` in the `world_works` test). -/
def World.writeThrough (w : World) (rid : ResourceId) (v : RVal) : World :=
  w.update rid (fun c => ⟨v, c.flag⟩)

/-- Number of `ResourcesChangeEvent`s the lazily created event channel has
received, if the channel resource exists. -/
def World.channelEvents (w : World) : Option Nat :=
  match w.lookup channelId with
  | some ⟨.chan e, _⟩ => some e
  | _ => none

/-- A concrete stand-in for `std::any::type_name`. -/
def tnDefault : ResourceId → String := fun rid => "res" ++ toString rid

theorem World.lookup_addNew_self (w : World) (rid : ResourceId) (v : RVal)
    (h : w.lookup rid = none) :
    (w.addNew rid v).lookup rid = some ⟨v, .free⟩ := by
  have hf : w.res.find? (fun p => p.1 == rid) = none := by
    simpa [World.lookup] using h
  simp [World.lookup, World.addNew, List.find?_append, hf, List.find?]

theorem World.lookup_addNew_ne (w : World) (rid rid2 : ResourceId) (v : RVal)
    (h : rid2 ≠ rid) :
    (w.addNew rid v).lookup rid2 = w.lookup rid2 := by
  have hb : ((rid : Nat) == rid2) = false :=
    beq_eq_false_iff_ne.mpr (fun hh => h hh.symm)
  simp [World.lookup, World.addNew, List.find?_append, List.find?, hb]

theorem World.lookup_update (w : World) (rid rid2 : ResourceId) (f : Cell → Cell) :
    (w.update rid f).lookup rid2 =
      if rid2 = rid then (w.lookup rid2).map f else w.lookup rid2 := by
  obtain ⟨l⟩ := w
  simp only [World.update, World.lookup]
  induction l with
  | nil => simp [List.find?]
  | cons p l ih =>
    by_cases hp : p.1 = rid2
    · by_cases hr : rid2 = rid
      · subst hr
        simp [List.find?, hp]
      · have hpr : (p.1 == rid) = false := by
          refine beq_eq_false_iff_ne.mpr ?_
          rw [hp]; exact hr
        simp [List.find?, hp, hpr, hr]
    · have hq : (p.1 == rid2) = false := beq_eq_false_iff_ne.mpr hp
      by_cases hk : p.1 = rid
      · simp only [List.map_cons, List.find?_cons]
        rw [if_pos (by exact beq_iff_eq.mpr hk)]
        simp only [hq]
        simpa [List.find?, hq] using ih
      · have hkr : (p.1 == rid) = false := beq_eq_false_iff_ne.mpr hk
        simpa [List.find?, hq, hkr] using ih

theorem World.lookup_pushEvent_ne (w : World) (rid : ResourceId)
    (h : rid ≠ channelId) :
    (w.pushEvent).lookup rid = w.lookup rid := by
  simp [World.pushEvent, World.lookup_update, h]

theorem World.lookup_pushEvent_chan (w : World) (e : Nat) (fl : BorrowFlag)
    (h : w.lookup channelId = some ⟨.chan e, fl⟩) :
    (w.pushEvent).lookup channelId = some ⟨.chan (e + 1), fl⟩ := by
  simp [World.pushEvent, World.lookup_update, h]

theorem World.lookup_none_of_contains_false (w : World) (rid : ResourceId)
    (h : w.containsR rid = false) : w.lookup rid = none := by
  rcases hl : w.lookup rid with _ | c
  · rfl
  · simp [World.containsR, hl] at h

/-- A store holding one ordinary resource (`TestResource { value: 10 }` of the
`world_works` test) under identifier `1`. -/
def bugWorld : World := (World.mk []).insertR 1 (.data 10)

/-- C1: requesting exclusive access while a borrow of the same resource is
outstanding must fail immediately and never silently alias.  The code violates
this: `try_fetch_mut` drops its `RefCell` guard inside the call (the unsafe
raw-pointer cast escapes it), so after a successful exclusive fetch the cell's
borrow flag is back to `free`, and a second exclusive fetch — and even a shared
fetch — issued while the first `&mut` is still live succeeds and returns a
reference aliasing the same cell, with no panic or error. -/
theorem double_exclusive_fetch_silently_aliases :
    (bugWorld.tryFetchMutCall tnDefault 1).1 = .ok (.data 10, 1) ∧
    ((bugWorld.tryFetchMutCall tnDefault 1).2.lookup 1).map Cell.flag =
      some .free ∧
    ((bugWorld.tryFetchMutCall tnDefault 1).2.tryFetchMutCall tnDefault 1).1 =
      .ok (.data 10, 1) ∧
    (bugWorld.tryFetchMutCall tnDefault 1).2.tryFetch tnDefault 1 =
      .ok (.data 10) := by
  refine ⟨by decide, by decide, by decide, by decide⟩

/-- C6: the store is a type-indexed map: `insert` constructs only when absent
and is idempotent (the second factory's value is discarded); after
`insert(|| X{value:10})` a fetch reads 10; after mutating to 20 through the
exclusive reference, a subsequent fetch reads 20. -/
theorem insert_idempotent_and_fetch_reads_writes :
    (∀ (w : World) (rid : ResourceId) (v : RVal),
      w.containsR rid = true → w.insertR rid v = w) ∧
    (bugWorld.tryFetch tnDefault 1 = .ok (.data 10) ∧
     bugWorld.insertR 1 (.data 99) = bugWorld ∧
     (bugWorld.insertR 1 (.data 99)).tryFetch tnDefault 1 = .ok (.data 10) ∧
     (bugWorld.writeThrough 1 (.data 20)).tryFetch tnDefault 1 =
       .ok (.data 20)) := by
  constructor
  · intro w rid v h
    simp [World.insertR, h]
  · refine ⟨by decide, by decide, by decide, by decide⟩

/-- Witness for C6 at concrete inputs: a second `insert` of identifier `1`
into `bugWorld` (which already holds it) leaves the store unchanged. -/
theorem insert_idempotent_and_fetch_reads_writes_witness :
    bugWorld.insertR 1 (.data 77) = bugWorld :=
  insert_idempotent_and_fetch_reads_writes.1 bugWorld 1 (.data 77) (by decide)

/-- C7: for a resource type never inserted, `try_fetch` / `try_fetch_mut`
return the recoverable `Fetch` error carrying the type name, while `fetch` /
`fetch_mut` treat the absence as fatal and abort (`none`) instead of
returning a value. -/
theorem absent_resource_try_errs_fetch_aborts :
    ∀ (w : World) (tn : ResourceId → String) (rid : ResourceId),
      w.containsR rid = false →
      w.tryFetch tn rid = .err (tn rid) ∧
      w.tryFetchMut tn rid = .err (tn rid) ∧
      w.fetch tn rid = none ∧
      w.fetchMut tn rid = none := by
  intro w tn rid h
  have hn : w.lookup rid = none := World.lookup_none_of_contains_false w rid h
  refine ⟨?_, ?_, ?_, ?_⟩ <;>
    simp [World.tryFetch, World.tryFetchMut, World.fetch, World.fetchMut, hn]

/-- Witness for C7 at concrete inputs: the empty store and identifier `5`. -/
theorem absent_resource_try_errs_fetch_aborts_witness :
    (World.mk []).tryFetch tnDefault 5 = .err (tnDefault 5) ∧
    (World.mk []).tryFetchMut tnDefault 5 = .err (tnDefault 5) ∧
    (World.mk []).fetch tnDefault 5 = none ∧
    (World.mk []).fetchMut tnDefault 5 = none :=
  absent_resource_try_errs_fetch_aborts (World.mk []) tnDefault 5 (by decide)

/-- C10: every first insertion of a resource type pushes exactly one
`ResourcesChangeEvent` onto the lazily created event channel, and the
channel's own lazy creation counts as such a first insertion: inserting a
non-channel type into a store with no channel leaves both resources present
and the channel having received exactly two events; inserting a fresh type
into a store that already has the channel adds exactly one event. -/
theorem first_insert_materializes_channel_and_pushes_events :
    (∀ (w : World) (rid : ResourceId) (v : RVal),
      rid ≠ channelId → w.containsR rid = false →
      w.containsR channelId = false →
        (w.insertR rid v).containsR rid = true ∧
        (w.insertR rid v).containsR channelId = true ∧
        (w.insertR rid v).channelEvents = some 2) ∧
    (∀ (w : World) (rid : ResourceId) (v : RVal) (e : Nat),
      rid ≠ channelId → w.containsR rid = false → w.channelEvents = some e →
        (w.insertR rid v).channelEvents = some (e + 1)) := by
  constructor
  · intro w rid v hne hrid hch
    have hrn : w.lookup rid = none :=
      World.lookup_none_of_contains_false w rid hrid
    have hcn : w.lookup channelId = none :=
      World.lookup_none_of_contains_false w channelId hch
    have h1r : (w.addNew rid v).lookup rid = some ⟨v, .free⟩ :=
      World.lookup_addNew_self w rid v hrn
    have h1c : (w.addNew rid v).lookup channelId = none := by
      rw [World.lookup_addNew_ne w rid channelId v hne.symm]
      exact hcn
    have h2c : ((w.addNew rid v).addNew channelId (.chan 0)).lookup channelId =
        some ⟨.chan 0, .free⟩ :=
      World.lookup_addNew_self (w.addNew rid v) channelId (.chan 0) h1c
    have h2r : ((w.addNew rid v).addNew channelId (.chan 0)).lookup rid =
        some ⟨v, .free⟩ := by
      rw [World.lookup_addNew_ne (w.addNew rid v) channelId rid (.chan 0) hne]
      exact h1r
    have h3c := World.lookup_pushEvent_chan _ 0 .free h2c
    have h3r : (((w.addNew rid v).addNew channelId (.chan 0)).pushEvent).lookup
        rid = some ⟨v, .free⟩ := by
      rw [World.lookup_pushEvent_ne _ rid hne]
      exact h2r
    have h4c := World.lookup_pushEvent_chan _ 1 .free h3c
    have h4r : ((((w.addNew rid v).addNew channelId
        (.chan 0)).pushEvent).pushEvent).lookup rid = some ⟨v, .free⟩ := by
      rw [World.lookup_pushEvent_ne _ rid hne]
      exact h3r
    have hw : w.insertR rid v =
        ((((w.addNew rid v).addNew channelId (.chan 0)).pushEvent).pushEvent) := by
      simp [World.insertR, World.insertChannel, World.containsR, hrn, h1c]
    rw [hw]
    refine ⟨?_, ?_, ?_⟩
    · simp [World.containsR, h4r]
    · simp [World.containsR, h4c]
    · simp [World.channelEvents, h4c]
  · intro w rid v e hne hrid hev
    have hrn : w.lookup rid = none :=
      World.lookup_none_of_contains_false w rid hrid
    obtain ⟨fl, hcl⟩ : ∃ fl, w.lookup channelId = some ⟨.chan e, fl⟩ := by
      rcases hl : w.lookup channelId with _ | c
      · simp [World.channelEvents, hl] at hev
      · obtain ⟨cv, fl⟩ := c
        cases cv with
        | data n => simp [World.channelEvents, hl] at hev
        | chan e2 =>
          simp only [World.channelEvents, hl] at hev
          obtain rfl : e2 = e := by simpa using hev
          exact ⟨fl, rfl⟩
    have h1c : (w.addNew rid v).lookup channelId = some ⟨.chan e, fl⟩ := by
      rw [World.lookup_addNew_ne w rid channelId v hne.symm]
      exact hcl
    have hw : w.insertR rid v = ((w.addNew rid v).pushEvent) := by
      simp [World.insertR, World.insertChannel, World.containsR, hrn, h1c]
    rw [hw]
    have h2c := World.lookup_pushEvent_chan _ e fl h1c
    simp [World.channelEvents, h2c]

/-- Witness for C10 at concrete inputs: inserting identifier `1` into the
empty store materializes the channel and yields exactly two events. -/
theorem first_insert_materializes_channel_and_pushes_events_witness :
    ((World.mk []).insertR 1 (.data 5)).containsR 1 = true ∧
    ((World.mk []).insertR 1 (.data 5)).containsR channelId = true ∧
    ((World.mk []).insertR 1 (.data 5)).channelEvents = some 2 :=
  first_insert_materializes_channel_and_pushes_events.1 (World.mk []) 1
    (.data 5) (by decide) (by decide) (by decide)

/-- Embeds a `Join` source (`join.rs` trait `Join`): `open` yields a presence
bitset — embedded as the characteristic function `mask` whose set bits all lie
below `bound` (hibitset bitsets are finite) — together with the `Components`
accessor state; the unsafe accessor `get` is embedded by the total function
`getF`, whose contract is only meaningful on ids set in `mask`. -/
structure JoinSource (α : Type) where
  mask : Nat → Bool
  bound : Nat
  getF : Nat → α

/-- Ascending iteration over a presence bitset (hibitset's `BitIter`): the set
ids below the bound, in increasing order. -/
def maskIds (mask : Nat → Bool) (bound : Nat) : List Nat :=
  (List.range bound).filter mask

/-- The ids the public join iterator visits. -/
def JoinSource.joinIds {α : Type} (s : JoinSource α) : List Nat :=
  maskIds s.mask s.bound

/-- Embeds `Join::join` / `JoinIterator::next` (`join.rs` lines 9-15, 29-37):
the sequence the iterator yields, as the list of accessor results over the
set ids in ascending order. -/
def JoinSource.joinList {α : Type} (s : JoinSource α) : List α :=
  s.joinIds.map s.getF

/-- Embeds the tuple instance generated by `impl_join_tuple` (`join.rs` lines
50-75) for a pair of sources: the composite bitset is `BitSetAnd` (pointwise
AND), the composite accessor applies both accessors to the same id; the N-ary
tuple instances arise by nesting this pairing. -/
def JoinSource.pair {α β : Type} (s1 : JoinSource α) (s2 : JoinSource β) :
    JoinSource (α × β) where
  mask := fun i => s1.mask i && s2.mask i
  bound := max s1.bound s2.bound
  getF := fun i => (s1.getF i, s2.getF i)

/-- The spec's example source holding ids `{1, 3, 5}`, with accessor values
`10 + id`. -/
def src135 : JoinSource Nat :=
  ⟨fun i => i == 1 || i == 3 || i == 5, 8, fun i => 10 + i⟩

/-- The spec's example source holding ids `{3, 5, 7}`, with accessor values
`20 + id`. -/
def src357 : JoinSource Nat :=
  ⟨fun i => i == 3 || i == 5 || i == 7, 8, fun i => 20 + i⟩

theorem src135_bounded : ∀ i, src135.mask i = true → i < src135.bound := by
  intro i hi
  simp only [src135, Bool.or_eq_true, beq_iff_eq] at hi
  rcases hi with (hi | hi) | hi <;> simp [src135, hi]

theorem src357_bounded : ∀ i, src357.mask i = true → i < src357.bound := by
  intro i hi
  simp only [src357, Bool.or_eq_true, beq_iff_eq] at hi
  rcases hi with (hi | hi) | hi <;> simp [src357, hi]

/-- C4: the composite of join sources yields exactly the identifiers present
in every source's bitset (the AND of the bitsets), in ascending order, paired
with the tuple of the sources' accessor results, and the yielded id set does
not depend on the order or nesting of the composition; on the spec's example,
sources over `{1,3,5}` and `{3,5,7}` yield exactly ids `[3, 5]` with both
components' values. -/
theorem join_composite_is_ordered_intersection :
    (∀ (α β : Type) (s1 : JoinSource α) (s2 : JoinSource β),
      (∀ i, s1.mask i = true → i < s1.bound) →
      (∀ i, s2.mask i = true → i < s2.bound) →
      (∀ i, i ∈ (s1.pair s2).joinIds ↔
        (s1.mask i = true ∧ s2.mask i = true)) ∧
      List.Pairwise (· < ·) (s1.pair s2).joinIds ∧
      (s1.pair s2).joinList =
        (s1.pair s2).joinIds.map (fun i => (s1.getF i, s2.getF i)) ∧
      (s1.pair s2).joinIds = (s2.pair s1).joinIds) ∧
    (∀ (α β γ : Type) (s1 : JoinSource α) (s2 : JoinSource β)
      (s3 : JoinSource γ),
      ((s1.pair s2).pair s3).joinIds = (s1.pair (s2.pair s3)).joinIds) ∧
    ((src135.pair src357).joinIds = [3, 5] ∧
     (src135.pair src357).joinList = [(13, 23), (15, 25)]) := by
  refine ⟨?_, ?_, by decide, by decide⟩
  · intro α β s1 s2 h1 h2
    refine ⟨fun i => ?_, ?_, rfl, ?_⟩
    · simp only [JoinSource.pair, JoinSource.joinIds, maskIds, List.mem_filter,
        List.mem_range, Bool.and_eq_true]
      constructor
      · rintro ⟨-, hm⟩
        exact hm
      · rintro ⟨hm1, hm2⟩
        exact ⟨lt_of_lt_of_le (h1 i hm1) (le_max_left _ _), hm1, hm2⟩
    · exact (List.pairwise_lt_range _).sublist (List.filter_sublist _)
    · have hm : (fun i => s1.mask i && s2.mask i) =
          (fun i => s2.mask i && s1.mask i) :=
        funext (fun i => Bool.and_comm _ _)
      simp only [JoinSource.pair, JoinSource.joinIds, maskIds]
      rw [hm, Nat.max_comm]
  · intro α β γ s1 s2 s3
    have hm : (fun i => (s1.mask i && s2.mask i) && s3.mask i) =
        (fun i => s1.mask i && (s2.mask i && s3.mask i)) :=
      funext (fun i => Bool.and_assoc _ _ _)
    simp only [JoinSource.pair, JoinSource.joinIds, maskIds]
    rw [hm, Nat.max_assoc]

/-- Witness for C4 at concrete inputs: id `3` is in the composite of the
example sources exactly because both bitsets hold it. -/
theorem join_composite_is_ordered_intersection_witness :
    3 ∈ (src135.pair src357).joinIds ↔
      (src135.mask 3 = true ∧ src357.mask 3 = true) :=
  ((join_composite_is_ordered_intersection.1 Nat Nat src135 src357
      src135_bounded src357_bounded).1 3)

/-- C5: through the public iteration path the unsafe accessor is invoked only
on identifiers set in the composite bitset, hence set in every component
source's bitset, so the accessor's precondition violation is unreachable. -/
theorem join_get_precondition_structurally_unreachable :
    (∀ (α : Type) (s : JoinSource α) (i : Nat),
      i ∈ s.joinIds → s.mask i = true) ∧
    (∀ (α β : Type) (s1 : JoinSource α) (s2 : JoinSource β) (i : Nat),
      i ∈ (s1.pair s2).joinIds → s1.mask i = true ∧ s2.mask i = true) := by
  constructor
  · intro α s i hi
    simp only [JoinSource.joinIds, maskIds, List.mem_filter] at hi
    exact hi.2
  · intro α β s1 s2 i hi
    simp only [JoinSource.joinIds, maskIds, List.mem_filter, JoinSource.pair,
      Bool.and_eq_true] at hi
    exact hi.2

/-- Witness for C5 at concrete inputs: id `3` visited by the example composite
iterator is set in both bitsets. -/
theorem join_get_precondition_structurally_unreachable_witness :
    src135.mask 3 = true ∧ (src135.mask 3 = true ∧ src357.mask 3 = true) :=
  ⟨join_get_precondition_structurally_unreachable.1 Nat src135 3 (by decide),
   join_get_precondition_structurally_unreachable.2 Nat Nat src135 src357 3
     (by decide)⟩

/-- Embeds `SystemInfo` (`registry.rs` lines 159-166): system type identity
(`TypeId`, embedded as `Nat`), name, and the three declared resource-id lists
in source order.  The runnable factory `create` plays no role in scheduling
and is omitted. -/
structure SystemInfo where
  sid : Nat
  name : String
  readsBeforeWrite : List ResourceId
  readsAfterWrite : List ResourceId
  writes : List ResourceId
deriving DecidableEq

/-- Embeds `systems.insert(info.system_type_id(), info)` (`registry.rs` line
27): `HashMap::insert` replaces the entry stored under an existing identity
and otherwise adds a fresh one. -/
def insertReplace (m : List (Nat × SystemInfo)) (s : SystemInfo) :
    List (Nat × SystemInfo) :=
  if m.any (fun p => p.1 == s.sid) then
    m.map (fun p => if p.1 == s.sid then (p.1, s) else p)
  else m ++ [(s.sid, s)]

/-- Embeds `SystemRegistry::add_system_infos` (`registry.rs` lines 22-29):
every supplied descriptor is inserted into the identity-keyed system map. -/
def addSystemInfos (m : List (Nat × SystemInfo)) (infos : List SystemInfo) :
    List (Nat × SystemInfo) :=
  infos.foldl insertReplace m

/-- The identities stored in the system map. -/
def regKeys (m : List (Nat × SystemInfo)) : List Nat :=
  m.map (fun p => p.1)

/-- The descriptors stored in the system map (`self.systems.values()`). -/
def registryValues (m : List (Nat × SystemInfo)) : List SystemInfo :=
  m.map (fun p => p.2)

/-- The descriptor registered under an identity. -/
def lookupReg (m : List (Nat × SystemInfo)) (sid : Nat) : Option SystemInfo :=
  (m.find? (fun p => p.1 == sid)).map (fun p => p.2)

/-- The derived `ResourceInfo::read_before_write_systems` set for resource `r`
(`registry.rs` lines 88-97), enumerated in the order of `S`. -/
def rbwSystems (S : List SystemInfo) (r : ResourceId) : List SystemInfo :=
  S.filter (fun s => decide (r ∈ s.readsBeforeWrite))

/-- The derived `ResourceInfo::write_systems` set for resource `r`
(`registry.rs` lines 98-104). -/
def writeSystems (S : List SystemInfo) (r : ResourceId) : List SystemInfo :=
  S.filter (fun s => decide (r ∈ s.writes))

/-- The derived `ResourceInfo::read_after_write_systems` set for resource `r`
(`registry.rs` lines 105-114). -/
def rawSystems (S : List SystemInfo) (r : ResourceId) : List SystemInfo :=
  S.filter (fun s => decide (r ∈ s.readsAfterWrite))

/-- Embeds the first edge pass of `SystemRegistry::refresh` (`registry.rs`
lines 119-136): for every system `w` and every resource `r` it writes, the
edge `b → w` for every reads-before-write system `b` of `r`
(`graph.add_dependency(system_info, read_before_write_system)`) and the edge
`w → a` for every reads-after-write system `a` of `r`
(`graph.add_dependency(read_after_write_system, system_info)`).  An edge
`(p, q)` means "p must run before q". -/
def edges12 (S : List SystemInfo) : List (Nat × Nat) :=
  S.flatMap (fun w => w.writes.flatMap (fun r =>
    (rbwSystems S r).map (fun b => (b.sid, w.sid)) ++
    (rawSystems S r).map (fun a => (w.sid, a.sid))))

/-- Modelled from the spec: the reachability check "directly or transitively"
inside `add_dependency_if_non_inverse` of
`tb_core::algorithm::topological_sort` (not under `src/`), with fuel bounding
the path length; fuel `es.length` covers every simple path. -/
def reachB (es : List (Nat × Nat)) : Nat → Nat → Nat → Bool
  | 0, u, v => u == v
  | fuel + 1, u, v =>
    u == v || es.any (fun e => e.1 == u && reachB es fuel e.2 v)

/-- Modelled from the spec (4.3 step 3): `add_dependency_if_non_inverse` of
`tb_core` (not under `src/`) adds the writer/writer tie-break edge
`p → s` unless the inverse `s →* p` is already reachable through the edges
added so far, which also prevents self-edges for the pair of a writer with
itself. -/
def addIfNonInverse (es : List (Nat × Nat)) (p s : Nat) : List (Nat × Nat) :=
  if reachB es es.length s p then es else es ++ [(p, s)]

/-- The innermost loop of the second edge pass (`registry.rs` lines 141-146):
for every writer `ws` of resource `r`, call
`add_dependency_if_non_inverse(write_system, system_info)` with `system_info`
the currently processed system of identity `sid0`. -/
def stepWriters (S : List SystemInfo) (sid0 : Nat) (acc : List (Nat × Nat))
    (r : ResourceId) : List (Nat × Nat) :=
  (writeSystems S r).foldl (fun acc3 ws => addIfNonInverse acc3 sid0 ws.sid) acc

/-- The per-system loop of the second edge pass (`registry.rs` lines
139-147): iterate the currently processed system's written resources. -/
def stepSys (S : List SystemInfo) (acc : List (Nat × Nat)) (s : SystemInfo) :
    List (Nat × Nat) :=
  s.writes.foldl (stepWriters S s.sid) acc

/-- Embeds the second edge pass of `SystemRegistry::refresh` (`registry.rs`
lines 138-148): for every system `s`, every resource `r` it writes and every
writer `ws` of `r`, call `add_dependency_if_non_inverse(write_system,
system_info)`, i.e. tentatively order `s` before `ws`.  The iteration orders
of the unordered system map and writer sets are embedded by the enumeration
order of `S`. -/
def edges3 (S : List SystemInfo) (init : List (Nat × Nat)) :
    List (Nat × Nat) :=
  S.foldl (stepSys S) init

/-- The dependency edges `SystemRegistry::refresh` rebuilds for enumeration
`S` of the registered systems. -/
def refreshEdges (S : List SystemInfo) : List (Nat × Nat) :=
  edges3 S (edges12 S)

/-- `v` still has an unemitted predecessor among `remaining`. -/
def blockedB (es : List (Nat × Nat)) (remaining : List Nat) (v : Nat) : Bool :=
  remaining.any (fun u => decide ((u, v) ∈ es))

/-- Modelled from the spec: the topological/wavefront visitor of
`tb_core::algorithm::topological_sort` (not under `src/`): each round yields
the wavefront of nodes all of whose predecessors have been yielded; a
non-empty remainder with no ready node is the fatal cycle error, reported
with the stuck nodes.  Structured on fuel; `fuel = remaining.length` always
suffices because every successful round emits at least one node. -/
def kahnFuel (es : List (Nat × Nat)) :
    Nat → List Nat → Except (List Nat) (List (List Nat))
  | 0, remaining => if remaining.isEmpty then .ok [] else .error remaining
  | fuel + 1, remaining =>
    if remaining.isEmpty then .ok []
    else
      let ready := remaining.filter (fun v => ! blockedB es remaining v)
      if ready.isEmpty then .error remaining
      else
        match kahnFuel es fuel
            (remaining.filter (fun v => blockedB es remaining v)) with
        | .error c => .error c
        | .ok blocks => .ok (ready :: blocks)

/-- The visitor's wavefronts over the given nodes. -/
def kahnBlocks (es : List (Nat × Nat)) (nodes : List Nat) :
    Except (List Nat) (List (List Nat)) :=
  kahnFuel es nodes.length nodes

/-- The schedule produced for enumeration `S` of the registered systems:
nodes are added per system (`graph.add_item`), edges per `refresh`, and the
visitor's wavefronts are drained in order. -/
def scheduleOf (S : List SystemInfo) : Except (List Nat) (List Nat) :=
  match kahnBlocks (refreshEdges S) (S.map (fun s => s.sid)) with
  | .error c => .error c
  | .ok blocks => .ok blocks.flatten

/-- The human-readable names of the systems with the given identities. -/
def namesOf (S : List SystemInfo) (ids : List Nat) : List String :=
  ids.map (fun i =>
    ((S.find? (fun s => s.sid == i)).map (fun s => s.name)).getD "")

/-- `u` occurs strictly before `v` in `L`. -/
def ListBefore (L : List Nat) (u v : Nat) : Prop :=
  ∃ p q r, L = p ++ u :: q ++ v :: r

theorem listBefore_append_of_mem {l1 l2 : List Nat} {u v : Nat}
    (hu : u ∈ l1) (hv : v ∈ l2) : ListBefore (l1 ++ l2) u v := by
  obtain ⟨p, q, rfl⟩ := List.append_of_mem hu
  obtain ⟨p2, r, rfl⟩ := List.append_of_mem hv
  refine ⟨p, q ++ p2, r, ?_⟩
  simp

theorem listBefore_append_left {l1 l2 : List Nat} {u v : Nat}
    (h : ListBefore l2 u v) : ListBefore (l1 ++ l2) u v := by
  obtain ⟨p, q, r, rfl⟩ := h
  refine ⟨l1 ++ p, q, r, ?_⟩
  simp

theorem kahnFuel_ok_cons (es : List (Nat × Nat)) (fuel : Nat) (a : Nat)
    (l : List Nat) (blocks : List (List Nat))
    (h : kahnFuel es (fuel + 1) (a :: l) = .ok blocks) :
    ∃ bs, blocks = ((a :: l).filter (fun v => ! blockedB es (a :: l) v)) :: bs ∧
      kahnFuel es fuel ((a :: l).filter (fun v => blockedB es (a :: l) v)) =
        .ok bs := by
  rcases hrec : kahnFuel es fuel
      ((a :: l).filter (fun x => blockedB es (a :: l) x)) with c | bs
  · by_cases hrdy :
        ((a :: l).filter (fun x => ! blockedB es (a :: l) x)).isEmpty = true
    · simp [kahnFuel, hrdy] at h
    · simp [kahnFuel, hrdy, hrec] at h
  · by_cases hrdy :
        ((a :: l).filter (fun x => ! blockedB es (a :: l) x)).isEmpty = true
    · simp [kahnFuel, hrdy] at h
    · simp only [kahnFuel, List.isEmpty_cons, Bool.false_eq_true, if_false,
        hrec] at h
      rw [if_neg (by simpa using hrdy)] at h
      exact ⟨bs, (Except.ok.inj h).symm, rfl⟩

theorem kahnFuel_mem (es : List (Nat × Nat)) :
    ∀ (fuel : Nat) (remaining : List Nat) (blocks : List (List Nat)),
      kahnFuel es fuel remaining = .ok blocks →
      ∀ v ∈ remaining, v ∈ blocks.flatten := by
  intro fuel
  induction fuel with
  | zero =>
    intro remaining blocks h v hv
    cases remaining with
    | nil => simp at hv
    | cons a l => simp [kahnFuel] at h
  | succ fuel ih =>
    intro remaining blocks h v hv
    cases remaining with
    | nil => simp at hv
    | cons a l =>
      obtain ⟨bs, rfl, hrec⟩ := kahnFuel_ok_cons es fuel a l blocks h
      by_cases hb : blockedB es (a :: l) v = true
      · have hvn : v ∈ (a :: l).filter (fun x => blockedB es (a :: l) x) :=
          List.mem_filter.mpr ⟨hv, hb⟩
        have := ih _ _ hrec v hvn
        simp only [List.flatten_cons, List.mem_append]
        exact Or.inr this
      · have hvr : v ∈ (a :: l).filter (fun x => ! blockedB es (a :: l) x) :=
          List.mem_filter.mpr ⟨hv, by simp [hb]⟩
        simp only [List.flatten_cons, List.mem_append]
        exact Or.inl hvr

theorem kahnFuel_subset (es : List (Nat × Nat)) :
    ∀ (fuel : Nat) (remaining : List Nat) (blocks : List (List Nat)),
      kahnFuel es fuel remaining = .ok blocks →
      ∀ v ∈ blocks.flatten, v ∈ remaining := by
  intro fuel
  induction fuel with
  | zero =>
    intro remaining blocks h v hv
    cases remaining with
    | nil =>
      have hb : blocks = [] := by simpa [kahnFuel] using h.symm
      subst hb
      simp at hv
    | cons a l => simp [kahnFuel] at h
  | succ fuel ih =>
    intro remaining blocks h v hv
    cases remaining with
    | nil =>
      have hb : blocks = [] := by simpa [kahnFuel] using h.symm
      subst hb
      simp at hv
    | cons a l =>
      obtain ⟨bs, rfl, hrec⟩ := kahnFuel_ok_cons es fuel a l blocks h
      simp only [List.flatten_cons, List.mem_append] at hv
      rcases hv with hv | hv
      · exact (List.mem_filter.mp hv).1
      · exact (List.mem_filter.mp (ih _ _ hrec v hv)).1

theorem kahnFuel_before (es : List (Nat × Nat)) {u v : Nat} (he : (u, v) ∈ es) :
    ∀ (fuel : Nat) (remaining : List Nat) (blocks : List (List Nat)),
      kahnFuel es fuel remaining = .ok blocks →
      u ∈ remaining → v ∈ remaining →
      ListBefore blocks.flatten u v := by
  intro fuel
  induction fuel with
  | zero =>
    intro remaining blocks h hu hv
    cases remaining with
    | nil => simp at hu
    | cons a l => simp [kahnFuel] at h
  | succ fuel ih =>
    intro remaining blocks h hu hv
    cases remaining with
    | nil => simp at hu
    | cons a l =>
      obtain ⟨bs, rfl, hrec⟩ := kahnFuel_ok_cons es fuel a l blocks h
      have hvb : blockedB es (a :: l) v = true :=
        List.any_eq_true.mpr ⟨u, hu, by simpa using he⟩
      have hvn : v ∈ (a :: l).filter (fun x => blockedB es (a :: l) x) :=
        List.mem_filter.mpr ⟨hv, hvb⟩
      simp only [List.flatten_cons]
      by_cases hub : blockedB es (a :: l) u = true
      · have hun : u ∈ (a :: l).filter (fun x => blockedB es (a :: l) x) :=
          List.mem_filter.mpr ⟨hu, hub⟩
        exact listBefore_append_left (ih _ _ hrec hun hvn)
      · have hur : u ∈ (a :: l).filter (fun x => ! blockedB es (a :: l) x) :=
          List.mem_filter.mpr ⟨hu, by simp [hub]⟩
        exact listBefore_append_of_mem hur (kahnFuel_mem es _ _ _ hrec v hvn)

theorem kahnFuel_nodup (es : List (Nat × Nat)) :
    ∀ (fuel : Nat) (remaining : List Nat) (blocks : List (List Nat)),
      kahnFuel es fuel remaining = .ok blocks →
      remaining.Nodup → blocks.flatten.Nodup := by
  intro fuel
  induction fuel with
  | zero =>
    intro remaining blocks h hnd
    cases remaining with
    | nil =>
      have hb : blocks = [] := by simpa [kahnFuel] using h.symm
      subst hb
      simp
    | cons a l => simp [kahnFuel] at h
  | succ fuel ih =>
    intro remaining blocks h hnd
    cases remaining with
    | nil =>
      have hb : blocks = [] := by simpa [kahnFuel] using h.symm
      subst hb
      simp
    | cons a l =>
      obtain ⟨bs, rfl, hrec⟩ := kahnFuel_ok_cons es fuel a l blocks h
      simp only [List.flatten_cons]
      rw [List.nodup_append]
      refine ⟨hnd.filter _, ih _ _ hrec (hnd.filter _), ?_⟩
      intro x hx hx2
      have hxn := kahnFuel_subset es _ _ _ hrec x hx2
      have h1 := (List.mem_filter.mp hx).2
      have h2 := (List.mem_filter.mp hxn).2
      simp [h2] at h1

theorem mem_edges12_rbw (S : List SystemInfo) (b w : SystemInfo)
    (r : ResourceId) (hb : b ∈ S) (hw : w ∈ S)
    (hbr : r ∈ b.readsBeforeWrite) (hwr : r ∈ w.writes) :
    (b.sid, w.sid) ∈ edges12 S := by
  simp only [edges12, List.mem_flatMap]
  refine ⟨w, hw, r, hwr, List.mem_append_left _ ?_⟩
  simp only [List.mem_map]
  exact ⟨b, List.mem_filter.mpr ⟨hb, by simpa using hbr⟩, rfl⟩

theorem mem_edges12_raw (S : List SystemInfo) (w a : SystemInfo)
    (r : ResourceId) (hw : w ∈ S) (ha : a ∈ S)
    (hwr : r ∈ w.writes) (har : r ∈ a.readsAfterWrite) :
    (w.sid, a.sid) ∈ edges12 S := by
  simp only [edges12, List.mem_flatMap]
  refine ⟨w, hw, r, hwr, List.mem_append_right _ ?_⟩
  simp only [List.mem_map]
  exact ⟨a, List.mem_filter.mpr ⟨ha, by simpa using har⟩, rfl⟩

theorem foldl_pres {α β : Type} (f : β → α → β) (P : β → Prop)
    (hf : ∀ b a, P b → P (f b a)) :
    ∀ (l : List α) (b : β), P b → P (l.foldl f b) := by
  intro l
  induction l with
  | nil => intro b hb; exact hb
  | cons a l ih => intro b hb; exact ih _ (hf b a hb)

theorem mem_addIfNonInverse (es : List (Nat × Nat)) (p s : Nat)
    (e : Nat × Nat) (h : e ∈ es) : e ∈ addIfNonInverse es p s := by
  unfold addIfNonInverse
  split
  · exact h
  · exact List.mem_append_left _ h

theorem mem_stepWriters_of_mem (S : List SystemInfo) (sid0 : Nat)
    (acc : List (Nat × Nat)) (r : ResourceId) (e : Nat × Nat) (h : e ∈ acc) :
    e ∈ stepWriters S sid0 acc r := by
  unfold stepWriters
  refine foldl_pres _ (fun es => e ∈ es) ?_ (writeSystems S r) acc h
  intro b ws hb
  exact mem_addIfNonInverse _ _ _ _ hb

theorem mem_stepSys_of_mem (S : List SystemInfo) (acc : List (Nat × Nat))
    (s : SystemInfo) (e : Nat × Nat) (h : e ∈ acc) : e ∈ stepSys S acc s := by
  unfold stepSys
  refine foldl_pres _ (fun es => e ∈ es) ?_ s.writes acc h
  intro b r hb
  exact mem_stepWriters_of_mem S s.sid b r e hb

theorem mem_edges3_of_mem_init (S : List SystemInfo)
    (init : List (Nat × Nat)) (e : Nat × Nat) (h : e ∈ init) :
    e ∈ edges3 S init := by
  unfold edges3
  refine foldl_pres _ (fun es => e ∈ es) ?_ S init h
  intro b s hb
  exact mem_stepSys_of_mem S b s e hb

theorem edges12_nil_of_no_readers (e : List SystemInfo)
    (h : ∀ s ∈ e, s.readsBeforeWrite = [] ∧ s.readsAfterWrite = []) :
    edges12 e = [] := by
  rw [List.eq_nil_iff_forall_not_mem]
  intro ed hed
  simp only [edges12, rbwSystems, rawSystems, List.mem_flatMap,
    List.mem_append, List.mem_map, List.mem_filter, decide_eq_true_eq] at hed
  obtain ⟨w, hw, r, hr, hca⟩ := hed
  rcases hca with ⟨b, ⟨hbe, hbr⟩, -⟩ | ⟨a, ⟨hae, har⟩, -⟩
  · rw [(h b hbe).1] at hbr
    exact absurd hbr (List.not_mem_nil r)
  · rw [(h a hae).2] at har
    exact absurd har (List.not_mem_nil r)

theorem mem_addIfNonInverse_src (es : List (Nat × Nat)) (p0 s0 : Nat)
    (ed : Nat × Nat) (h : ed ∈ addIfNonInverse es p0 s0) :
    ed ∈ es ∨ ed.1 = p0 := by
  unfold addIfNonInverse at h
  split at h
  · exact Or.inl h
  · rcases List.mem_append.mp h with h2 | h2
    · exact Or.inl h2
    · simp only [List.mem_singleton] at h2
      subst h2
      exact Or.inr rfl

theorem mem_stepWriters_src (S : List SystemInfo) (sid0 : Nat)
    (acc : List (Nat × Nat)) (r : ResourceId) (ed : Nat × Nat)
    (h : ed ∈ stepWriters S sid0 acc r) : ed ∈ acc ∨ ed.1 = sid0 := by
  unfold stepWriters at h
  refine foldl_pres _ (fun es => ∀ z ∈ es, z ∈ acc ∨ z.1 = sid0) ?_
    (writeSystems S r) acc (fun z hz => Or.inl hz) ed h
  intro b ws hb z hz
  rcases mem_addIfNonInverse_src b sid0 ws.sid z hz with h2 | h2
  · exact hb z h2
  · exact Or.inr h2

theorem mem_stepSys_src (S : List SystemInfo) (acc : List (Nat × Nat))
    (s : SystemInfo) (ed : Nat × Nat) (h : ed ∈ stepSys S acc s) :
    ed ∈ acc ∨ ed.1 = s.sid := by
  unfold stepSys at h
  refine foldl_pres _ (fun es => ∀ z ∈ es, z ∈ acc ∨ z.1 = s.sid) ?_
    s.writes acc (fun z hz => Or.inl hz) ed h
  intro b r hb z hz
  rcases mem_stepWriters_src S s.sid b r z hz with h2 | h2
  · exact hb z h2
  · exact Or.inr h2

theorem foldl_stepSys_src (S : List SystemInfo) :
    ∀ (l : List SystemInfo) (acc : List (Nat × Nat)) (ed : Nat × Nat),
      ed ∈ l.foldl (stepSys S) acc →
      ed ∈ acc ∨ ed.1 ∈ l.map (fun s => s.sid) := by
  intro l
  induction l with
  | nil =>
    intro acc ed h
    exact Or.inl h
  | cons s l ih =>
    intro acc ed h
    rw [List.foldl_cons] at h
    rcases ih _ _ h with h2 | h2
    · rcases mem_stepSys_src S acc s ed h2 with h3 | h3
      · exact Or.inl h3
      · right
        simp [h3]
    · right
      simp only [List.map_cons, List.mem_cons]
      exact Or.inr h2

theorem reachB_false_of_no_src (es : List (Nat × Nat)) (u v : Nat)
    (h : ∀ ed ∈ es, ed.1 ≠ u) (huv : u ≠ v) :
    ∀ fuel, reachB es fuel u v = false := by
  intro fuel
  induction fuel with
  | zero =>
    simp only [reachB]
    exact beq_eq_false_iff_ne.mpr huv
  | succ fuel ih =>
    simp only [reachB, Bool.or_eq_false_iff]
    refine ⟨beq_eq_false_iff_ne.mpr huv, ?_⟩
    rw [List.any_eq_false]
    intro ed hed
    simp [h ed hed]

theorem addIfNonInverse_adds (es : List (Nat × Nat)) (x0 y0 : Nat)
    (hq : ∀ ed ∈ es, ed.1 ≠ y0) (hyx : y0 ≠ x0) :
    (x0, y0) ∈ addIfNonInverse es x0 y0 := by
  unfold addIfNonInverse
  rw [reachB_false_of_no_src es y0 x0 hq hyx es.length]
  simp

theorem stepWriters_no_src (S : List SystemInfo) (sid0 : Nat)
    (acc : List (Nat × Nat)) (r : ResourceId) (y0 : Nat)
    (hq : ∀ ed ∈ acc, ed.1 ≠ y0) (hs : sid0 ≠ y0) :
    ∀ ed ∈ stepWriters S sid0 acc r, ed.1 ≠ y0 := by
  intro ed hed
  rcases mem_stepWriters_src S sid0 acc r ed hed with h | h
  · exact hq ed h
  · rw [h]
    exact hs

theorem foldl_addIfNonInverse_adds (x0 : Nat) (y : SystemInfo) :
    ∀ (l : List SystemInfo) (acc : List (Nat × Nat)),
      y ∈ l → (∀ ed ∈ acc, ed.1 ≠ y.sid) → y.sid ≠ x0 →
      (x0, y.sid) ∈ l.foldl (fun a w => addIfNonInverse a x0 w.sid) acc := by
  intro l
  induction l with
  | nil =>
    intro acc hy
    simp at hy
  | cons w ws ih =>
    intro acc hy hq hyx
    rw [List.foldl_cons]
    rcases List.mem_cons.mp hy with rfl | hy2
    · have hadd : (x0, y.sid) ∈ addIfNonInverse acc x0 y.sid :=
        addIfNonInverse_adds acc x0 y.sid hq hyx
      exact foldl_pres _ (fun es => (x0, y.sid) ∈ es)
        (fun b a hb => mem_addIfNonInverse _ _ _ _ hb) ws _ hadd
    · refine ih _ hy2 ?_ hyx
      intro ed hed
      rcases mem_addIfNonInverse_src acc x0 w.sid ed hed with h | h
      · exact hq ed h
      · rw [h]
        exact hyx.symm

theorem foldl_stepWriters_adds (S : List SystemInfo) (x0 : Nat)
    (y : SystemInfo) (r : ResourceId)
    (hy : y ∈ writeSystems S r) (hyx : y.sid ≠ x0) :
    ∀ (l : List ResourceId) (acc : List (Nat × Nat)),
      r ∈ l → (∀ ed ∈ acc, ed.1 ≠ y.sid) →
      (x0, y.sid) ∈ l.foldl (stepWriters S x0) acc := by
  intro l
  induction l with
  | nil =>
    intro acc hrl
    simp at hrl
  | cons r2 l ih =>
    intro acc hrl hq
    rw [List.foldl_cons]
    rcases List.mem_cons.mp hrl with rfl | hrl2
    · have hadd : (x0, y.sid) ∈ stepWriters S x0 acc r := by
        unfold stepWriters
        exact foldl_addIfNonInverse_adds x0 y (writeSystems S r) acc hy hq hyx
      exact foldl_pres _ (fun es => (x0, y.sid) ∈ es)
        (fun b a hb => mem_stepWriters_of_mem S x0 b a _ hb) l _ hadd
    · exact ih _ hrl2 (stepWriters_no_src S x0 acc r2 y.sid hq hyx.symm)

theorem writers_edge_of_enumeration (e : List SystemInfo) (x y : SystemInfo)
    (r : ResourceId) (p q t : List SystemInfo)
    (he : e = p ++ x :: q ++ y :: t)
    (hnd : (e.map (fun s => s.sid)).Nodup)
    (hrd : ∀ s ∈ e, s.readsBeforeWrite = [] ∧ s.readsAfterWrite = [])
    (hxr : r ∈ x.writes) (hyr : r ∈ y.writes) :
    (x.sid, y.sid) ∈ refreshEdges e := by
  subst he
  rw [List.map_append, List.map_cons, List.map_append, List.map_cons] at hnd
  rw [List.nodup_append] at hnd
  obtain ⟨-, -, hdisj⟩ := hnd
  have hyNot : y.sid ∉ p.map (fun s => s.sid) ++
      x.sid :: q.map (fun s => s.sid) :=
    fun hc => hdisj hc (by simp)
  have hyp : y.sid ∉ p.map (fun s => s.sid) :=
    fun hc => hyNot (List.mem_append_left _ hc)
  have hyx : y.sid ≠ x.sid := by
    intro hc
    apply hyNot
    rw [hc]
    simp
  have h12 : edges12 ((p ++ x :: q) ++ y :: t) = [] :=
    edges12_nil_of_no_readers _ hrd
  have hq : ∀ ed ∈ p.foldl (stepSys ((p ++ x :: q) ++ y :: t)) [],
      ed.1 ≠ y.sid := by
    intro ed hed
    rcases foldl_stepSys_src ((p ++ x :: q) ++ y :: t) p [] ed hed with h | h
    · exact absurd h (List.not_mem_nil ed)
    · exact fun hc => hyp (hc ▸ h)
  have hyw : y ∈ writeSystems ((p ++ x :: q) ++ y :: t) r :=
    List.mem_filter.mpr ⟨by simp, by simpa using hyr⟩
  have hadd : (x.sid, y.sid) ∈
      stepSys ((p ++ x :: q) ++ y :: t)
        (p.foldl (stepSys ((p ++ x :: q) ++ y :: t)) []) x := by
    unfold stepSys
    exact foldl_stepWriters_adds ((p ++ x :: q) ++ y :: t) x.sid y r hyw hyx
      x.writes _ hxr hq
  unfold refreshEdges edges3
  rw [h12, List.foldl_append, List.foldl_append, List.foldl_cons]
  exact foldl_pres _ (fun es => (x.sid, y.sid) ∈ es)
    (fun b s hb => mem_stepSys_of_mem _ b s _ hb) (y :: t) _
    (foldl_pres _ (fun es => (x.sid, y.sid) ∈ es)
      (fun b s hb => mem_stepSys_of_mem _ b s _ hb) q _ hadd)

theorem scheduleOf_ok_inv (S : List SystemInfo) (L : List Nat)
    (h : scheduleOf S = .ok L) :
    ∃ blocks, kahnBlocks (refreshEdges S) (S.map (fun s => s.sid)) =
      .ok blocks ∧ L = blocks.flatten := by
  unfold scheduleOf at h
  rcases hk : kahnBlocks (refreshEdges S) (S.map (fun s => s.sid)) with
    c | blocks
  · rw [hk] at h
    simp at h
  · rw [hk] at h
    exact ⟨blocks, hk, (Except.ok.inj h).symm⟩

/-- The spec's scenario system B: reads-before-write of resource 1. -/
def sysB : SystemInfo := ⟨0, "B", [1], [], []⟩

/-- The spec's scenario system C: reads-after-write of resource 1. -/
def sysC : SystemInfo := ⟨1, "C", [], [1], []⟩

/-- The spec's scenario system A: writes resource 1. -/
def sysA : SystemInfo := ⟨2, "A", [], [], [1]⟩

/-- All registration orders of the spec's scenario systems. -/
def sysPerms3 : List (List SystemInfo) :=
  [[sysB, sysC, sysA], [sysB, sysA, sysC], [sysC, sysB, sysA],
   [sysC, sysA, sysB], [sysA, sysB, sysC], [sysA, sysC, sysB]]

/-- C2: for every registered system set whose dependency graph is acyclic
(the topological visitor succeeds), every system declaring a resource in
reads-before-write is scheduled before every system declaring it in writes,
and every such writer before every system declaring it in reads-after-write;
on the spec's scenario — B (reads-before-write R1), C (reads-after-write R1),
A (writes R1) — every registration order yields the schedule B, A, C. -/
theorem schedule_orders_readers_around_writers :
    (∀ (S : List SystemInfo) (L : List Nat) (b w : SystemInfo)
      (r : ResourceId),
      scheduleOf S = .ok L → b ∈ S → w ∈ S →
      r ∈ b.readsBeforeWrite → r ∈ w.writes →
      ListBefore L b.sid w.sid) ∧
    (∀ (S : List SystemInfo) (L : List Nat) (w a : SystemInfo)
      (r : ResourceId),
      scheduleOf S = .ok L → w ∈ S → a ∈ S →
      r ∈ w.writes → r ∈ a.readsAfterWrite →
      ListBefore L w.sid a.sid) ∧
    (∀ S ∈ sysPerms3, scheduleOf S = .ok [0, 2, 1]) := by
  have hkb : ∀ (S : List SystemInfo) (L : List Nat),
      scheduleOf S = .ok L →
      ∃ blocks, kahnBlocks (refreshEdges S) (S.map (fun s => s.sid)) =
        .ok blocks ∧ L = blocks.flatten := by
    intro S L h
    unfold scheduleOf at h
    rcases hk : kahnBlocks (refreshEdges S) (S.map (fun s => s.sid)) with
      c | blocks
    · rw [hk] at h
      simp at h
    · rw [hk] at h
      exact ⟨blocks, hk, (Except.ok.inj h).symm⟩
  refine ⟨?_, ?_, ?_⟩
  · intro S L b w r hsch hb hw hbr hwr
    obtain ⟨blocks, hk, rfl⟩ := hkb S L hsch
    have he : (b.sid, w.sid) ∈ refreshEdges S :=
      mem_edges3_of_mem_init S _ _ (mem_edges12_rbw S b w r hb hw hbr hwr)
    exact kahnFuel_before _ he _ _ _ hk
      (List.mem_map.mpr ⟨b, hb, rfl⟩) (List.mem_map.mpr ⟨w, hw, rfl⟩)
  · intro S L w a r hsch hw ha hwr har
    obtain ⟨blocks, hk, rfl⟩ := hkb S L hsch
    have he : (w.sid, a.sid) ∈ refreshEdges S :=
      mem_edges3_of_mem_init S _ _ (mem_edges12_raw S w a r hw ha hwr har)
    exact kahnFuel_before _ he _ _ _ hk
      (List.mem_map.mpr ⟨w, hw, rfl⟩) (List.mem_map.mpr ⟨a, ha, rfl⟩)
  · intro S hS
    simp only [sysPerms3, List.mem_cons, List.not_mem_nil, or_false] at hS
    rcases hS with rfl | rfl | rfl | rfl | rfl | rfl <;> rfl

/-- Witness for C2 at concrete inputs: in the schedule produced for the
registration order B, C, A, system B precedes writer A and A precedes C. -/
theorem schedule_orders_readers_around_writers_witness :
    ListBefore [0, 2, 1] sysB.sid sysA.sid ∧
    ListBefore [0, 2, 1] sysA.sid sysC.sid :=
  ⟨schedule_orders_readers_around_writers.1 [sysB, sysC, sysA] [0, 2, 1]
      sysB sysA 1 rfl (by decide) (by decide) (by decide) (by decide),
   schedule_orders_readers_around_writers.2.1 [sysB, sysC, sysA] [0, 2, 1]
      sysA sysC 1 rfl (by decide) (by decide) (by decide) (by decide)⟩

/-- A writer of resource 1 with no reader relations. -/
def w1A : SystemInfo := ⟨10, "w1A", [], [], [1]⟩

/-- A second writer of resource 1 with no reader relations. -/
def w1B : SystemInfo := ⟨11, "w1B", [], [], [1]⟩

/-- Counterexample to C3 as stated: the same registration set — two writers
of resource 1 unconnected by any reader relation — rebuilt under the two
enumeration orders the unordered system map may present, yields opposite
relative writer orders, so the relative order is not a function of the
registration sequence alone. -/
theorem writer_tiebreak_depends_on_enumeration :
    [w1A, w1B].Perm [w1B, w1A] ∧
    scheduleOf [w1A, w1B] = .ok [10, 11] ∧
    scheduleOf [w1B, w1A] = .ok [11, 10] :=
  ⟨by decide, rfl, rfl⟩

/-- C3 amended: in a registry whose systems declare no reads-before-write or
reads-after-write relations, any two writers of a common resource appear in
the schedule in the order in which the rebuild enumerates the system map —
the first-enumerated writer precedes — whenever the rebuilt graph
linearizes; the relative order is therefore a deterministic function of the
map's enumeration at rebuild time (identically enumerating rebuilds agree),
not of the registration sequence.  The concrete two-writer registry
linearizes under both of its enumerations, in enumeration order. -/
theorem writer_tiebreak_follows_enumeration :
    (∀ (e : List SystemInfo) (x y : SystemInfo) (r : ResourceId)
      (p q t : List SystemInfo) (L : List Nat),
      e = p ++ x :: q ++ y :: t →
      (e.map (fun s => s.sid)).Nodup →
      (∀ s ∈ e, s.readsBeforeWrite = [] ∧ s.readsAfterWrite = []) →
      r ∈ x.writes → r ∈ y.writes →
      scheduleOf e = .ok L →
      ListBefore L x.sid y.sid) ∧
    (scheduleOf [w1A, w1B] = .ok [10, 11] ∧
      ListBefore [10, 11] w1A.sid w1B.sid) ∧
    (scheduleOf [w1B, w1A] = .ok [11, 10] ∧
      ListBefore [11, 10] w1B.sid w1A.sid) := by
  refine ⟨?_, ⟨rfl, [], [], [], rfl⟩, ⟨rfl, [], [], [], rfl⟩⟩
  intro e x y r p q t L he hnd hrd hxr hyr hsch
  have hedge : (x.sid, y.sid) ∈ refreshEdges e :=
    writers_edge_of_enumeration e x y r p q t he hnd hrd hxr hyr
  obtain ⟨blocks, hk, rfl⟩ := scheduleOf_ok_inv e L hsch
  have hxe : x ∈ e := by
    rw [he]
    simp
  have hye : y ∈ e := by
    rw [he]
    simp
  exact kahnFuel_before _ hedge _ _ _ hk
    (List.mem_map.mpr ⟨x, hxe, rfl⟩) (List.mem_map.mpr ⟨y, hye, rfl⟩)

/-- Witness for the amended C3 at concrete inputs: the enumeration
`[w1A, w1B]` of the two-writer registry schedules the first-enumerated
writer first. -/
theorem writer_tiebreak_follows_enumeration_witness :
    ListBefore [10, 11] w1A.sid w1B.sid :=
  writer_tiebreak_follows_enumeration.1 [w1A, w1B] w1A w1B 1 [] [] []
    [10, 11] rfl (by decide) (by decide) (by decide) (by decide) rfl

/-- A system writing resource 1 and reading resource 2 after its write. -/
def cycA : SystemInfo := ⟨3, "cycA", [], [2], [1]⟩

/-- A system writing resource 2 and reading resource 1 after its write:
together with `cycA` this declares a dependency cycle. -/
def cycB : SystemInfo := ⟨4, "cycB", [], [1], [2]⟩

/-- A nonempty set of nodes each of which has a predecessor inside the set —
the standard witness that a finite edge set contains a cycle (every cycle
yields such a set, and any such set contains a cycle). -/
def CycleSet (es : List (Nat × Nat)) (c : List Nat) : Prop :=
  c ≠ [] ∧ ∀ v ∈ c, ∃ u ∈ c, (u, v) ∈ es

theorem kahnFuel_cycle (es : List (Nat × Nat)) (c : List Nat)
    (hc : CycleSet es c) :
    ∀ (fuel : Nat) (remaining : List Nat),
      (∀ v ∈ c, v ∈ remaining) →
      ∃ stuck, kahnFuel es fuel remaining = .error stuck ∧
        ∀ v ∈ c, v ∈ stuck := by
  obtain ⟨hcne, hcpred⟩ := hc
  obtain ⟨v0, hv0⟩ : ∃ v0, v0 ∈ c := by
    cases c with
    | nil => exact absurd rfl hcne
    | cons a l => exact ⟨a, by simp⟩
  intro fuel
  induction fuel with
  | zero =>
    intro remaining hsub
    have hne : remaining.isEmpty = false := by
      cases remaining with
      | nil => exact absurd (hsub v0 hv0) (List.not_mem_nil v0)
      | cons a l => rfl
    exact ⟨remaining, by simp [kahnFuel, hne], hsub⟩
  | succ fuel ih =>
    intro remaining hsub
    cases remaining with
    | nil => exact absurd (hsub v0 hv0) (List.not_mem_nil v0)
    | cons a l =>
      have hblocked : ∀ v ∈ c, blockedB es (a :: l) v = true := by
        intro v hv
        obtain ⟨u, hu, hedge⟩ := hcpred v hv
        exact List.any_eq_true.mpr ⟨u, hsub u hu, by simpa using hedge⟩
      by_cases hrdy :
          ((a :: l).filter (fun x => ! blockedB es (a :: l) x)).isEmpty = true
      · exact ⟨a :: l, by simp [kahnFuel, hrdy], hsub⟩
      · have hsub2 : ∀ v ∈ c,
            v ∈ (a :: l).filter (fun x => blockedB es (a :: l) x) :=
          fun v hv => List.mem_filter.mpr ⟨hsub v hv, hblocked v hv⟩
        obtain ⟨stuck, hrec, hstuck⟩ := ih _ hsub2
        exact ⟨stuck, by simp [kahnFuel, hrdy, hrec], hstuck⟩

/-- C8: for every registered system set whose declared accesses induce a
cycle in the dependency graph, the rebuild reports the fatal cycle error
carrying a stuck set that contains every participant of the cycle, and it
never silently linearizes the declarations into a successful schedule; on the
concrete instance — cycA must precede cycB via resource 1, cycB must precede
cycA via resource 2 — the error names exactly the two participants. -/
theorem cyclic_declarations_reported_not_linearized :
    (∀ (S : List SystemInfo) (c : List Nat),
      CycleSet (refreshEdges S) c →
      (∀ v ∈ c, v ∈ S.map (fun s => s.sid)) →
      ∃ stuck, scheduleOf S = .error stuck ∧ (∀ v ∈ c, v ∈ stuck) ∧
        (scheduleOf S).isOk = false) ∧
    (scheduleOf [cycA, cycB] = .error [3, 4] ∧
     namesOf [cycA, cycB] [3, 4] = ["cycA", "cycB"] ∧
     (scheduleOf [cycA, cycB]).isOk = false) := by
  constructor
  · intro S c hc hsub
    obtain ⟨stuck, hk, hstuck⟩ := kahnFuel_cycle (refreshEdges S) c hc
      ((S.map (fun s => s.sid)).length) (S.map (fun s => s.sid)) hsub
    have hsch : scheduleOf S = .error stuck := by
      unfold scheduleOf kahnBlocks
      rw [hk]
    exact ⟨stuck, hsch, hstuck, by rw [hsch]; rfl⟩
  · exact ⟨rfl, rfl, rfl⟩

/-- Witness for C8 at concrete inputs: the cycle set `{3, 4}` of the
cycA/cycB declarations forces the cycle error, whose stuck set contains both
participants. -/
theorem cyclic_declarations_reported_not_linearized_witness :
    ∃ stuck, scheduleOf [cycA, cycB] = .error stuck ∧
      (∀ v ∈ [3, 4], v ∈ stuck) ∧
      (scheduleOf [cycA, cycB]).isOk = false :=
  cyclic_declarations_reported_not_linearized.1 [cycA, cycB] [3, 4]
    ⟨by decide, by decide⟩ (by decide)

/-- Key-value coherence of the system map: every entry is stored under its
descriptor's identity (`systems.insert(info.system_type_id(), info)`). -/
def regWF (m : List (Nat × SystemInfo)) : Prop :=
  ∀ p ∈ m, p.1 = p.2.sid

theorem regWF_insertReplace (m : List (Nat × SystemInfo)) (s : SystemInfo)
    (h : regWF m) : regWF (insertReplace m s) := by
  unfold insertReplace
  split
  · intro p hp
    obtain ⟨q, hq, rfl⟩ := List.mem_map.mp hp
    by_cases hqs : (q.1 == s.sid) = true
    · simp only [hqs, if_true]
      exact beq_iff_eq.mp hqs
    · simp only [hqs, if_false]
      exact h q hq
  · intro p hp
    rcases List.mem_append.mp hp with hp | hp
    · exact h p hp
    · simp only [List.mem_singleton] at hp
      subst hp
      rfl

theorem regKeys_insertReplace_of_any (m : List (Nat × SystemInfo))
    (s : SystemInfo) (h : m.any (fun p => p.1 == s.sid) = true) :
    regKeys (insertReplace m s) = regKeys m := by
  unfold insertReplace
  rw [if_pos h]
  simp only [regKeys, List.map_map]
  refine List.map_congr_left ?_
  intro p hp
  by_cases hps : p.1 = s.sid <;> simp [hps]

theorem regKeys_nodup_insertReplace (m : List (Nat × SystemInfo))
    (s : SystemInfo) (h : (regKeys m).Nodup) :
    (regKeys (insertReplace m s)).Nodup := by
  by_cases hany : m.any (fun p => p.1 == s.sid) = true
  · rw [regKeys_insertReplace_of_any m s hany]
    exact h
  · unfold insertReplace
    rw [if_neg hany]
    simp only [regKeys, List.map_append, List.map_cons, List.map_nil]
    rw [List.nodup_append]
    refine ⟨h, List.nodup_singleton _, ?_⟩
    intro k hk hks
    simp only [List.mem_singleton] at hks
    subst hks
    obtain ⟨p, hp, hpk⟩ := List.mem_map.mp hk
    exact hany (List.any_eq_true.mpr ⟨p, hp, by simp [hpk]⟩)

theorem map_replace_id_of_no_match (m : List (Nat × SystemInfo))
    (s : SystemInfo) (h : m.any (fun p => p.1 == s.sid) = false) :
    m.map (fun p => if p.1 == s.sid then (p.1, s) else p) = m := by
  induction m with
  | nil => rfl
  | cons p l ih =>
    simp only [List.any_cons, Bool.or_eq_false_iff] at h
    simp only [List.map_cons]
    rw [if_neg (by simp [h.1]), ih h.2]

theorem insertReplace_idempotent (m : List (Nat × SystemInfo))
    (s : SystemInfo) :
    insertReplace (insertReplace m s) s = insertReplace m s := by
  by_cases hany : m.any (fun p => p.1 == s.sid) = true
  · unfold insertReplace
    rw [if_pos hany]
    have hfun : (fun p : Nat × SystemInfo =>
        (if p.1 == s.sid then (p.1, s) else p).1 == s.sid) =
        (fun p : Nat × SystemInfo => p.1 == s.sid) := by
      funext p
      by_cases hp : (p.1 == s.sid) = true <;> simp [hp]
    have hany2 : (m.map (fun p => if p.1 == s.sid then (p.1, s) else p)).any
        (fun p => p.1 == s.sid) = true := by
      rw [List.any_map]
      show (m.any (fun p =>
        (if p.1 == s.sid then (p.1, s) else p).1 == s.sid)) = true
      rw [hfun]
      exact hany
    rw [if_pos hany2, List.map_map]
    refine List.map_congr_left ?_
    intro p hp
    by_cases hps : (p.1 == s.sid) = true <;> simp [Function.comp, hps]
  · unfold insertReplace
    rw [if_neg hany]
    have hfalse : m.any (fun p => p.1 == s.sid) = false := by
      cases hb : m.any (fun p => p.1 == s.sid)
      · rfl
      · exact absurd hb hany
    have hany2 : (m ++ [(s.sid, s)]).any (fun p => p.1 == s.sid) = true := by
      simp [List.any_append]
    rw [if_pos hany2, List.map_append,
      map_replace_id_of_no_match m s hfalse]
    simp

theorem lookupReg_map_replace (m : List (Nat × SystemInfo)) (s : SystemInfo)
    (hany : m.any (fun p => p.1 == s.sid) = true) :
    lookupReg (m.map (fun p => if p.1 == s.sid then (p.1, s) else p)) s.sid =
      some s := by
  induction m with
  | nil => simp at hany
  | cons p l ih =>
    by_cases hp : p.1 = s.sid
    · simp [lookupReg, List.find?_cons, hp]
    · have hpb : (p.1 == s.sid) = false := beq_eq_false_iff_ne.mpr hp
      rw [List.any_cons, hpb, Bool.false_or] at hany
      simpa [lookupReg, List.find?_cons, hp, hpb] using ih hany

theorem lookupReg_insertReplace (m : List (Nat × SystemInfo))
    (s : SystemInfo) : lookupReg (insertReplace m s) s.sid = some s := by
  unfold insertReplace
  by_cases hany : m.any (fun p => p.1 == s.sid) = true
  · rw [if_pos hany]
    exact lookupReg_map_replace m s hany
  · rw [if_neg hany]
    have hnone : m.find? (fun p => p.1 == s.sid) = none := by
      rw [List.find?_eq_none]
      intro p hp hps
      exact hany (List.any_eq_true.mpr ⟨p, hp, hps⟩)
    simp [lookupReg, List.find?_append, hnone, List.find?]

theorem registryValues_sids (m : List (Nat × SystemInfo)) (h : regWF m) :
    (registryValues m).map (fun s => s.sid) = regKeys m := by
  simp only [registryValues, regKeys, List.map_map]
  refine List.map_congr_left ?_
  intro p hp
  exact (h p hp).symm

/-- C9: re-registering an already registered system identity replaces the
prior entry rather than adding a second one: the entry stored under the
identity is the latest descriptor, repeated registration of the same
descriptor is idempotent, the registry keys stay duplicate-free for every
registration sequence, and every schedule produced from any enumeration of
the registry contains each system identity at most once. -/
theorem reregistration_replaces_not_duplicates :
    (∀ (m : List (Nat × SystemInfo)) (s : SystemInfo),
      lookupReg (insertReplace m s) s.sid = some s) ∧
    (∀ (m : List (Nat × SystemInfo)) (s : SystemInfo),
      insertReplace (insertReplace m s) s = insertReplace m s) ∧
    (∀ regs : List SystemInfo, (regKeys (addSystemInfos [] regs)).Nodup) ∧
    (∀ (regs e : List SystemInfo) (L : List Nat),
      e.Perm (registryValues (addSystemInfos [] regs)) →
      scheduleOf e = .ok L → L.Nodup) := by
  refine ⟨lookupReg_insertReplace, insertReplace_idempotent, ?_, ?_⟩
  · intro regs
    exact foldl_pres insertReplace (fun m => (regKeys m).Nodup)
      regKeys_nodup_insertReplace regs [] (by simp [regKeys])
  · intro regs e L hperm hsch
    have hwf : regWF (addSystemInfos [] regs) ∧
        (regKeys (addSystemInfos [] regs)).Nodup :=
      foldl_pres insertReplace (fun m => regWF m ∧ (regKeys m).Nodup)
        (fun m s hm => ⟨regWF_insertReplace m s hm.1,
          regKeys_nodup_insertReplace m s hm.2⟩)
        regs [] ⟨fun p hp => absurd hp (List.not_mem_nil p),
          by simp [regKeys]⟩
    have hvals : ((registryValues (addSystemInfos [] regs)).map
        (fun s => s.sid)).Nodup := by
      rw [registryValues_sids _ hwf.1]
      exact hwf.2
    have hnodes : (e.map (fun s => s.sid)).Nodup :=
      ((hperm.map (fun s => s.sid)).nodup_iff).mpr hvals
    unfold scheduleOf at hsch
    rcases hk : kahnBlocks (refreshEdges e) (e.map (fun s => s.sid)) with
      c | blocks
    · rw [hk] at hsch
      simp at hsch
    · rw [hk] at hsch
      obtain rfl : L = blocks.flatten := (Except.ok.inj hsch).symm
      exact kahnFuel_nodup _ _ _ _ hk hnodes

/-- Witness for C9 at concrete inputs: registering `w1A` twice and `w1B` once
yields the duplicate-free schedule `[10, 11]`. -/
theorem reregistration_replaces_not_duplicates_witness :
    ([10, 11] : List Nat).Nodup :=
  reregistration_replaces_not_duplicates.2.2.2 [w1A, w1A, w1B] [w1A, w1B]
    [10, 11] (by decide) rfl

end Toybox
